import Mathlib

/-!
Verification of the terminal time-series plotting engine
(`internal/stats/plot.go` of verte-zerg/tuipe).

Shallow embedding: Go `float64` values are modelled as rationals `ℚ`
(the spec's arithmetic statements — block boundaries, means, linear
interpolation, range widening — are about exact arithmetic), Go `int`
as `ℤ` or `ℕ` where signs allow, slices as lists.  Reading the
`NO_COLOR` environment variable, terminal detection and terminal width
are modelled as explicit parameters; the output sink is modelled as the
list of strings written to it, in order (each Go `Fprintln`/`Fprintf`
call writes exactly one line).
-/

namespace Tuipe

/-- `Series` from plot.go: a named data series. -/
structure Series where
  name : String
  values : List ℚ
deriving Repr, DecidableEq

/-- `seriesMinMaxRange` from plot.go. -/
structure SeriesMinMaxRange where
  min : ℚ
  max : ℚ
deriving Repr, DecidableEq

/-- `lineStyle` from plot.go: a periodic dash pattern (field `on` of the
source is renamed `onLen`, `on` being a Lean keyword). -/
structure LineStyle where
  name : String
  period : ℤ
  onLen : ℤ
deriving Repr, DecidableEq

/-- `ansiColor` from plot.go. -/
structure AnsiColor where
  name : String
  code : String
deriving Repr, DecidableEq

def defaultPlotHeight : ℤ := 10
def minPlotWidth : ℤ := 10
def axisLabelTop : String := "100%"
def axisLabelMid : String := "50%"
def axisLabelBottom : String := "0%"
def axisSeparator : String := " │ "
def scaleNote : String := "Scaled per series; see min/max below."
def colorReset : String := "\x1b[0m"
def terminalWidthBackup : ℤ := 80

/-- The fixed `lineStyles` table from plot.go. -/
def lineStyles : List LineStyle :=
  [⟨"solid", 1, 1⟩, ⟨"dashed", 6, 3⟩, ⟨"dotted", 4, 1⟩, ⟨"dashdot", 8, 3⟩]

/-- The fixed `colorPalette` table from plot.go. -/
def colorPalette : List AnsiColor :=
  [⟨"cyan", "\x1b[36m"⟩, ⟨"magenta", "\x1b[35m"⟩, ⟨"yellow", "\x1b[33m"⟩,
   ⟨"green", "\x1b[32m"⟩, ⟨"blue", "\x1b[34m"⟩]

/-- Downsampling block start of `resampleSeries`:
`start := int(float64(i) * float64(len(values)) / float64(width))`
(the quantity is nonnegative, so Go's truncation toward zero is the floor). -/
def blockStart (n width i : ℕ) : ℕ :=
  (⌊((i * n : ℕ) : ℚ) / ((width : ℕ) : ℚ)⌋).toNat

/-- Downsampling block end of `resampleSeries` before the two clamps:
`end := int(float64(i+1) * float64(len(values)) / float64(width))`. -/
def blockEndRaw (n width i : ℕ) : ℕ :=
  (⌊(((i + 1) * n : ℕ) : ℚ) / ((width : ℕ) : ℚ)⌋).toNat

/-- Downsampling block end of `resampleSeries` after both clamps
(`if end <= start { end = start + 1 }; if end > len(values) { end = len(values) }`). -/
def blockEnd (n width i : ℕ) : ℕ :=
  let start := blockStart n width i
  let e1 := if blockEndRaw n width i ≤ start then start + 1 else blockEndRaw n width i
  if e1 > n then n else e1

/-- `resampleSeries` from plot.go. -/
def resampleSeries (values : List ℚ) (width : ℕ) : List ℚ :=
  let n := values.length
  if values.length = 0 ∨ width = 0 then []
  else if n = width then values
  else if n > width then
    (List.range width).map fun i =>
      let start := blockStart n width i
      let e := blockEnd n width i
      let block := (values.drop start).take (e - start)
      block.sum / ((e - start : ℕ) : ℚ)
  else if width = 1 then [values.getD 0 0]
  else if n = 1 then List.replicate width (values.getD 0 0)
  else
    (List.range width).map fun (i : ℕ) =>
      let pos : ℚ := (i : ℚ) * ((n : ℚ) - 1) / ((width : ℚ) - 1)
      let idx0 := ⌊pos⌋
      let idx := if idx0 < 0 then 0 else idx0.toNat
      if idx ≥ n - 1 then values.getD (n - 1) 0
      else
        let frac := pos - (idx : ℚ)
        values.getD idx 0 * (1 - frac) + values.getD (idx + 1) 0 * frac

theorem floor_nat_div_toNat (a b : ℕ) :
    (⌊((a : ℕ) : ℚ) / ((b : ℕ) : ℚ)⌋).toNat = a / b := by
  rw [Int.floor_toNat]
  exact Nat.floor_div_eq_div a b

theorem blockStart_eq (n width i : ℕ) : blockStart n width i = i * n / width :=
  floor_nat_div_toNat (i * n) width

theorem blockEndRaw_eq (n width i : ℕ) : blockEndRaw n width i = (i + 1) * n / width :=
  floor_nat_div_toNat ((i + 1) * n) width

/-- In the true downsampling regime (`width < n`), consecutive raw boundaries are
strictly increasing, so the `end <= start` clamp never fires. -/
theorem blockBound_strict (n width i : ℕ) (hw : 0 < width) (hn : width < n) :
    i * n / width < (i + 1) * n / width := by
  have h1 : (i * n + width) / width ≤ (i + 1) * n / width := by
    apply Nat.div_le_div_right
    nlinarith
  have h2 : (i * n + width) / width = i * n / width + 1 := Nat.add_div_right _ hw
  omega

theorem blockEndRaw_le (n width i : ℕ) (hw : 0 < width) (hi : i < width) :
    (i + 1) * n / width ≤ n := by
  have h1 : (i + 1) * n ≤ width * n := Nat.mul_le_mul_right n hi
  calc (i + 1) * n / width ≤ width * n / width := Nat.div_le_div_right h1
    _ = n := Nat.mul_div_cancel_left n hw

theorem blockEnd_eq_of_lt (n width i : ℕ) (hw : 0 < width) (hn : width < n)
    (hi : i < width) : blockEnd n width i = (i + 1) * n / width := by
  unfold blockEnd
  rw [blockStart_eq, blockEndRaw_eq]
  have hstep := blockBound_strict n width i hw hn
  have hcap := blockEndRaw_le n width i hw hi
  simp only [if_neg (by omega : ¬ ((i + 1) * n / width ≤ i * n / width)),
    if_neg (by omega : ¬ ((i + 1) * n / width > n))]

theorem getD_map_range (f : ℕ → ℚ) (w i : ℕ) (hi : i < w) :
    (((List.range w).map f).getD i 0) = f i := by
  rw [List.getD_eq_getElem?_getD]
  simp [List.getElem?_map, List.getElem?_range, hi]

theorem blockStart_mono (n width : ℕ) (i i' : ℕ) (h : i ≤ i') :
    i * n / width ≤ i' * n / width :=
  Nat.div_le_div_right (Nat.mul_le_mul_right n h)

theorem block_cover_exists (n width j : ℕ) (hw : 0 < width) (hn : width < n)
    (hj : j < n) :
    ∃ i, i < width ∧ i * n / width ≤ j ∧ j + 1 ≤ (i + 1) * n / width := by
  have hn0 : 0 < n := by omega
  have hX : 0 < (j + 1) * width := Nat.mul_pos (by omega) hw
  refine ⟨((j + 1) * width - 1) / n, ?_, ?_, ?_⟩
  · rw [Nat.div_lt_iff_lt_mul hn0]
    have h1 : (j + 1) * width ≤ n * width := Nat.mul_le_mul_right width (by omega)
    have h2 : n * width = width * n := Nat.mul_comm n width
    omega
  · have h1 : ((j + 1) * width - 1) / n * n ≤ (j + 1) * width - 1 :=
      Nat.div_mul_le_self _ n
    have h2 : ((j + 1) * width - 1) / n * n / width < j + 1 := by
      rw [Nat.div_lt_iff_lt_mul hw]
      omega
    omega
  · rw [Nat.le_div_iff_mul_le hw]
    have h1 : (j + 1) * width - 1 < (((j + 1) * width - 1) / n + 1) * n :=
      (Nat.div_lt_iff_lt_mul hn0).mp (Nat.lt_succ_self _)
    omega

theorem block_cover_unique (n width j : ℕ) (i i' : ℕ)
    (h1 : i * n / width ≤ j) (h2 : j + 1 ≤ (i + 1) * n / width)
    (h1' : i' * n / width ≤ j) (h2' : j + 1 ≤ (i' + 1) * n / width) : i = i' := by
  rcases Nat.lt_trichotomy i i' with h | h | h
  · have := blockStart_mono n width (i + 1) i' h
    omega
  · exact h
  · have := blockStart_mono n width (i' + 1) i h
    omega

/-- C1: in the downsampling regime (`1 ≤ width < len(values)`), the blocks of
`resampleSeries` are contiguous (`end i = start (i+1)`, hence boundaries are
monotonically non-decreasing), nonempty, cover every input index exactly once,
the final block ends exactly at `len(values)`, and each output element is the
arithmetic mean of its block. -/
theorem resampleSeries_downsample_partition (values : List ℚ) (width : ℕ)
    (hw : 1 ≤ width) (hn : width < values.length) :
    (∀ i, i + 1 < width →
        blockEnd values.length width i = blockStart values.length width (i + 1)) ∧
    (∀ i, i < width →
        blockStart values.length width i < blockEnd values.length width i) ∧
    (∀ j, j < values.length → ∃! i, i < width ∧
        blockStart values.length width i ≤ j ∧ j < blockEnd values.length width i) ∧
    blockEnd values.length width (width - 1) = values.length ∧
    (∀ i, i < width →
        (resampleSeries values width).getD i 0 =
          ((values.drop (blockStart values.length width i)).take
            (blockEnd values.length width i - blockStart values.length width i)).sum /
          ((blockEnd values.length width i - blockStart values.length width i : ℕ) : ℚ)) := by
  have hw0 : 0 < width := hw
  refine ⟨?_, ?_, ?_, ?_, ?_⟩
  · intro i hi
    rw [blockEnd_eq_of_lt _ _ _ hw0 hn (by omega), blockStart_eq]
  · intro i hi
    rw [blockEnd_eq_of_lt _ _ _ hw0 hn hi, blockStart_eq]
    exact blockBound_strict values.length width i hw0 hn
  · intro j hj
    obtain ⟨i, hi, hs, he⟩ := block_cover_exists values.length width j hw0 hn hj
    refine ⟨i, ⟨hi, ?_, ?_⟩, ?_⟩
    · rw [blockStart_eq]; exact hs
    · rw [blockEnd_eq_of_lt _ _ _ hw0 hn hi]; omega
    · rintro i' ⟨hi', hs', he'⟩
      rw [blockStart_eq] at hs'
      rw [blockEnd_eq_of_lt _ _ _ hw0 hn hi'] at he'
      exact block_cover_unique values.length width j i' i hs' (by omega) hs he
  · have hlast : width - 1 < width := by omega
    rw [blockEnd_eq_of_lt _ _ _ hw0 hn hlast]
    have hstep : width - 1 + 1 = width := by omega
    rw [hstep, Nat.mul_div_cancel_left _ hw0]
  · intro i hi
    unfold resampleSeries
    rw [if_neg (by omega), if_neg (by omega), if_pos hn]
    exact getD_map_range _ width i hi

/-- Witness for C1 at `values = [1, 2, 3, 4, 5]`, `width = 2`. -/
theorem resampleSeries_downsample_partition_witness :
    (1 ≤ 2 ∧ 2 < ([1, 2, 3, 4, 5] : List ℚ).length) ∧
    ((∀ i, i + 1 < 2 →
        blockEnd ([1, 2, 3, 4, 5] : List ℚ).length 2 i =
          blockStart ([1, 2, 3, 4, 5] : List ℚ).length 2 (i + 1)) ∧
    (∀ i, i < 2 →
        blockStart ([1, 2, 3, 4, 5] : List ℚ).length 2 i <
          blockEnd ([1, 2, 3, 4, 5] : List ℚ).length 2 i) ∧
    (∀ j, j < ([1, 2, 3, 4, 5] : List ℚ).length → ∃! i, i < 2 ∧
        blockStart ([1, 2, 3, 4, 5] : List ℚ).length 2 i ≤ j ∧
          j < blockEnd ([1, 2, 3, 4, 5] : List ℚ).length 2 i) ∧
    blockEnd ([1, 2, 3, 4, 5] : List ℚ).length 2 (2 - 1) =
      ([1, 2, 3, 4, 5] : List ℚ).length ∧
    (∀ i, i < 2 →
        (resampleSeries ([1, 2, 3, 4, 5] : List ℚ) 2).getD i 0 =
          ((([1, 2, 3, 4, 5] : List ℚ).drop
              (blockStart ([1, 2, 3, 4, 5] : List ℚ).length 2 i)).take
            (blockEnd ([1, 2, 3, 4, 5] : List ℚ).length 2 i -
              blockStart ([1, 2, 3, 4, 5] : List ℚ).length 2 i)).sum /
          ((blockEnd ([1, 2, 3, 4, 5] : List ℚ).length 2 i -
              blockStart ([1, 2, 3, 4, 5] : List ℚ).length 2 i : ℕ) : ℚ))) :=
  ⟨by norm_num, resampleSeries_downsample_partition [1, 2, 3, 4, 5] 2
    (by norm_num) (by norm_num)⟩

theorem resampleSeries_length_eq (values : List ℚ) (width : ℕ)
    (hne : values ≠ []) (hw : 1 ≤ width) :
    (resampleSeries values width).length = width := by
  have hlen : values.length ≠ 0 := by
    intro h
    exact hne (List.length_eq_zero.mp h)
  unfold resampleSeries
  rw [if_neg (by omega)]
  by_cases h1 : values.length = width
  · rw [if_pos h1, h1]
  · rw [if_neg h1]
    by_cases h2 : values.length > width
    · rw [if_pos h2]
      simp
    · rw [if_neg h2]
      by_cases h3 : width = 1
      · rw [if_pos h3, h3]
        rfl
      · rw [if_neg h3]
        by_cases h4 : values.length = 1
        · rw [if_pos h4]
          exact List.length_replicate width _
        · rw [if_neg h4]
          rw [List.length_map, List.length_range]

/-- C4: for nonempty input and `width ≥ 1`, the output of `resampleSeries`
has length exactly `width` (identity copy, block averaging, or
interpolation/replication). -/
theorem resampleSeries_length (values : List ℚ) (width : ℕ)
    (hne : values ≠ []) (hw : 1 ≤ width) :
    (resampleSeries values width).length = width :=
  resampleSeries_length_eq values width hne hw

/-- Witness for C4 at `values = [3, 7]`, `width = 5`. -/
theorem resampleSeries_length_witness :
    (([3, 7] : List ℚ) ≠ [] ∧ 1 ≤ 5) ∧
      (resampleSeries ([3, 7] : List ℚ) 5).length = 5 :=
  ⟨⟨by simp, by norm_num⟩, resampleSeries_length [3, 7] 5 (by simp) (by norm_num)⟩

/-- `lineStyle.shouldPlot` from plot.go: a dot column `x` is eligible when
`x mod period < on` (on the absolute value of `x`), always for `period <= 1`. -/
def shouldPlot (ls : LineStyle) (x : ℤ) : Bool :=
  if ls.period ≤ 1 then true
  else
    let x' := if x < 0 then -x else x
    decide (x' % ls.period < ls.onLen)

/-- An always-on style (`on == period`) plots every dot column. -/
theorem shouldPlot_always (ls : LineStyle) (h : ls.onLen = ls.period) (x : ℤ) :
    shouldPlot ls x = true := by
  unfold shouldPlot
  by_cases hp : ls.period ≤ 1
  · rw [if_pos hp]
  · rw [if_neg hp, h]
    have hpos : 0 < ls.period := by omega
    have hx' : 0 ≤ if x < 0 then -x else x := by
      by_cases hx : x < 0
      · rw [if_pos hx]; omega
      · rw [if_neg hx]; omega
    simp only [decide_eq_true_eq]
    exact Int.emod_lt_of_pos _ hpos

/-- Two raster dots are (8-)adjacent: their coordinates differ by at most one
in each direction. -/
def adjStep (p q : ℤ × ℤ) : Prop := |q.1 - p.1| ≤ 1 ∧ |q.2 - p.2| ≤ 1

instance : DecidablePred fun pq : (ℤ × ℤ) × (ℤ × ℤ) => adjStep pq.1 pq.2 := by
  intro pq
  unfold adjStep
  infer_instance

/-- The loop body of `drawLine` from plot.go (Bresenham).  The value is the
sequence of points passed to the `plot` callback, in order; `fuel` is an
embedding artifact (the Go loop is `for {}`), shown below to never run out
for the fuel chosen by `drawLine`. -/
def drawLineAux (x1 y1 sx sy dx dy : ℤ) : ℕ → ℤ → ℤ → ℤ → Option (List (ℤ × ℤ))
  | 0, _, _, _ => none
  | fuel + 1, x0, y0, e =>
    if x0 = x1 ∧ y0 = y1 then some [(x0, y0)]
    else
      let e2 := 2 * e
      if e2 ≥ dy ∧ x0 = x1 then some [(x0, y0)]
      else
        let ex := if e2 ≥ dy then e + dy else e
        let xx := if e2 ≥ dy then x0 + sx else x0
        if e2 ≤ dx ∧ y0 = y1 then some [(x0, y0)]
        else
          let ey := if e2 ≤ dx then ex + dx else ex
          let yy := if e2 ≤ dx then y0 + sy else y0
          (drawLineAux x1 y1 sx sy dx dy fuel xx yy ey).map ((x0, y0) :: ·)

/-- Go's `int(math.Abs(float64(·)))` as used by `drawLine`. -/
def intAbs (z : ℤ) : ℤ :=
  if z < 0 then -z else z

theorem intAbs_eq_natAbs (z : ℤ) : intAbs z = (z.natAbs : ℤ) := by
  unfold intAbs
  by_cases h : z < 0
  · rw [if_pos h]
    omega
  · rw [if_neg h]
    omega

/-- `drawLine` from plot.go: Bresenham between `(x0,y0)` and `(x1,y1)`.
Returns the sequence of points passed to the `plot` callback. -/
def drawLine (x0 y0 x1 y1 : ℤ) : Option (List (ℤ × ℤ)) :=
  let dx := intAbs (x1 - x0)
  let sx : ℤ := if x0 < x1 then 1 else -1
  let dy := -intAbs (y1 - y0)
  let sy : ℤ := if y0 < y1 then 1 else -1
  drawLineAux x1 y1 sx sy dx dy (dx - dy + 1).toNat x0 y0 (dx + dy)


theorem adjStep_shift (x y u v : ℤ) (ha : |u - x| ≤ 1) (hb : |v - y| ≤ 1) :
    adjStep (x, y) (u, v) := by
  unfold adjStep
  exact ⟨ha, hb⟩

theorem abs_unit_step (x s : ℤ) (hs : s = 1 ∨ s = -1) : |x + s - x| ≤ 1 := by
  have h : x + s - x = s := by ring
  rw [h]
  rcases hs with rfl | rfl <;> norm_num

theorem abs_zero_step (x : ℤ) : |x - x| ≤ 1 := by
  simp

/-- Consing the current point onto a correct tail path keeps all path
properties, provided the two leading points are adjacent. -/
theorem drawLine_cons (x0 y0 xh yh x1 y1 : ℤ) (l : List (ℤ × ℤ))
    (hadj : adjStep (x0, y0) (xh, yh))
    (hh : l.head? = some (xh, yh))
    (hla : l.getLast? = some (x1, y1))
    (hc : List.Chain' adjStep l) :
    ((x0, y0) :: l).head? = some (x0, y0) ∧
      ((x0, y0) :: l).getLast? = some (x1, y1) ∧
      List.Chain' adjStep ((x0, y0) :: l) := by
  cases l with
  | nil => cases hh
  | cons a t =>
    have ha : a = (xh, yh) := by
      rw [List.head?_cons] at hh
      exact Option.some.inj hh
    subst ha
    refine ⟨rfl, ?_, ?_⟩
    · rw [List.getLast?_cons_cons]
      exact hla
    · rw [List.chain'_cons]
      exact ⟨hadj, hc⟩

set_option maxHeartbeats 1000000 in
set_option linter.all false in
theorem drawLineAux_spec (x1 y1 sx sy dx dy : ℤ)
    (hdx : 0 ≤ dx) (hdy : dy ≤ 0)
    (hsx : sx = 1 ∨ sx = -1) (hsy : sy = 1 ∨ sy = -1) :
    ∀ (fuel : ℕ) (x0 y0 e : ℤ),
      (sx = 1 → x0 ≤ x1) → (sx = -1 → x1 ≤ x0) →
      (sy = 1 → y0 ≤ y1) → (sy = -1 → y1 ≤ y0) →
      ((x1 - x0).natAbs : ℤ) ≤ dx → ((y1 - y0).natAbs : ℤ) ≤ -dy →
      e = dx + dy - ((x1 - x0).natAbs : ℤ) * dy - ((y1 - y0).natAbs : ℤ) * dx →
      (x1 - x0).natAbs + (y1 - y0).natAbs < fuel →
      ∃ l, drawLineAux x1 y1 sx sy dx dy fuel x0 y0 e = some l ∧
        l.head? = some (x0, y0) ∧ l.getLast? = some (x1, y1) ∧
        List.Chain' adjStep l ∧
        l.length ≤ (x1 - x0).natAbs + (y1 - y0).natAbs + 1 := by
  intro fuel
  induction fuel with
  | zero =>
    intro x0 y0 e _ _ _ _ _ _ _ hfuel
    omega
  | succ fuel ih =>
    intro x0 y0 e hx1 hx2 hy1 hy2 hpx hpy herr hfuel
    by_cases hfin : x0 = x1 ∧ y0 = y1
    · refine ⟨[(x0, y0)], ?_, rfl, ?_, List.chain'_singleton _, ?_⟩
      · simp [drawLineAux, if_pos hfin]
      · rw [hfin.1, hfin.2]; rfl
      · simp only [List.length_singleton]
        omega
    · -- break B (`x0 == x1` inside the x branch) never fires
      have hnoB : ¬ (2 * e ≥ dy ∧ x0 = x1) := by
        rintro ⟨hB, hBx⟩
        have hyne : y0 ≠ y1 := fun h => hfin ⟨hBx, h⟩
        have hpy1 : (1 : ℤ) ≤ ((y1 - y0).natAbs : ℤ) := by omega
        have hpxz : ((x1 - x0).natAbs : ℤ) = 0 := by omega
        rw [hpxz] at herr
        have key : dx * 1 ≤ dx * ((y1 - y0).natAbs : ℤ) :=
          mul_le_mul_of_nonneg_left hpy1 hdx
        have hdyneg : dy ≤ -1 := by omega
        nlinarith
      -- break C (`y0 == y1` inside the y branch) never fires
      have hnoC : ¬ (2 * e ≤ dx ∧ y0 = y1) := by
        rintro ⟨hC, hCy⟩
        have hxne : x0 ≠ x1 := fun h => hfin ⟨h, hCy⟩
        have hpx1 : (1 : ℤ) ≤ ((x1 - x0).natAbs : ℤ) := by omega
        have hpyz : ((y1 - y0).natAbs : ℤ) = 0 := by omega
        rw [hpyz] at herr
        have hdx1 : (1 : ℤ) ≤ dx := by omega
        have key : ((x1 - x0).natAbs : ℤ) * dy ≤ 1 * dy :=
          mul_le_mul_of_nonpos_right hpx1 hdy
        nlinarith
      by_cases hB : 2 * e ≥ dy
      · by_cases hC : 2 * e ≤ dx
        · -- both branches step
          have hxne : x0 ≠ x1 := fun h => hnoB ⟨hB, h⟩
          have hyne : y0 ≠ y1 := fun h => hnoC ⟨hC, h⟩
          have hunf : drawLineAux x1 y1 sx sy dx dy (fuel + 1) x0 y0 e =
              (drawLineAux x1 y1 sx sy dx dy fuel (x0 + sx) (y0 + sy)
                (e + dy + dx)).map ((x0, y0) :: ·) := by
            simp only [drawLineAux, if_neg hfin, if_neg hnoB, if_neg hnoC,
              if_pos hB, if_pos hC]
          have hxa : ((x1 - (x0 + sx)).natAbs : ℤ) = ((x1 - x0).natAbs : ℤ) - 1 := by
            rcases hsx with rfl | rfl
            · have := hx1 rfl
              omega
            · have := hx2 rfl
              omega
          have hya : ((y1 - (y0 + sy)).natAbs : ℤ) = ((y1 - y0).natAbs : ℤ) - 1 := by
            rcases hsy with rfl | rfl
            · have := hy1 rfl
              omega
            · have := hy2 rfl
              omega
          obtain ⟨l, hl, hh, hla, hc, hlen⟩ :=
            ih (x0 + sx) (y0 + sy) (e + dy + dx)
              (fun h => by subst h; have := hx1 rfl; omega)
              (fun h => by subst h; have := hx2 rfl; omega)
              (fun h => by subst h; have := hy1 rfl; omega)
              (fun h => by subst h; have := hy2 rfl; omega)
              (by omega) (by omega)
              (by rw [hxa, hya]; linear_combination herr)
              (by omega)
          obtain ⟨h1, h2, h3⟩ := drawLine_cons x0 y0 (x0 + sx) (y0 + sy) x1 y1 l
            (adjStep_shift x0 y0 (x0 + sx) (y0 + sy)
              (abs_unit_step x0 sx hsx) (abs_unit_step y0 sy hsy)) hh hla hc
          refine ⟨(x0, y0) :: l, ?_, h1, h2, h3, ?_⟩
          · rw [hunf, hl]
            rfl
          · simp only [List.length_cons]
            omega
        · -- only the x branch steps
          have hxne : x0 ≠ x1 := fun h => hnoB ⟨hB, h⟩
          have hunf : drawLineAux x1 y1 sx sy dx dy (fuel + 1) x0 y0 e =
              (drawLineAux x1 y1 sx sy dx dy fuel (x0 + sx) y0
                (e + dy)).map ((x0, y0) :: ·) := by
            simp only [drawLineAux, if_neg hfin, if_neg hnoB, if_neg hnoC,
              if_pos hB, if_neg hC]
          have hxa : ((x1 - (x0 + sx)).natAbs : ℤ) = ((x1 - x0).natAbs : ℤ) - 1 := by
            rcases hsx with rfl | rfl
            · have := hx1 rfl
              omega
            · have := hx2 rfl
              omega
          obtain ⟨l, hl, hh, hla, hc, hlen⟩ :=
            ih (x0 + sx) y0 (e + dy)
              (fun h => by subst h; have := hx1 rfl; omega)
              (fun h => by subst h; have := hx2 rfl; omega)
              hy1 hy2
              (by omega) hpy
              (by rw [hxa]; linear_combination herr)
              (by omega)
          obtain ⟨h1, h2, h3⟩ := drawLine_cons x0 y0 (x0 + sx) y0 x1 y1 l
            (adjStep_shift x0 y0 (x0 + sx) y0
              (abs_unit_step x0 sx hsx) (abs_zero_step y0)) hh hla hc
          refine ⟨(x0, y0) :: l, ?_, h1, h2, h3, ?_⟩
          · rw [hunf, hl]
            rfl
          · simp only [List.length_cons]
            omega
      · -- only the y branch steps (¬(2e ≥ dy) forces 2e ≤ dx since dy ≤ 0 ≤ dx)
        have hC : 2 * e ≤ dx := by omega
        have hyne : y0 ≠ y1 := fun h => hnoC ⟨hC, h⟩
        have hunf : drawLineAux x1 y1 sx sy dx dy (fuel + 1) x0 y0 e =
            (drawLineAux x1 y1 sx sy dx dy fuel x0 (y0 + sy)
              (e + dx)).map ((x0, y0) :: ·) := by
          simp only [drawLineAux, if_neg hfin, if_neg hnoB, if_neg hnoC,
            if_neg hB, if_pos hC]
        have hya : ((y1 - (y0 + sy)).natAbs : ℤ) = ((y1 - y0).natAbs : ℤ) - 1 := by
          rcases hsy with rfl | rfl
          · have := hy1 rfl
            omega
          · have := hy2 rfl
            omega
        obtain ⟨l, hl, hh, hla, hc, hlen⟩ :=
          ih x0 (y0 + sy) (e + dx)
            hx1 hx2
            (fun h => by subst h; have := hy1 rfl; omega)
            (fun h => by subst h; have := hy2 rfl; omega)
            hpx (by omega)
            (by rw [hya]; linear_combination herr)
            (by omega)
        obtain ⟨h1, h2, h3⟩ := drawLine_cons x0 y0 x0 (y0 + sy) x1 y1 l
          (adjStep_shift x0 y0 x0 (y0 + sy)
            (abs_zero_step x0) (abs_unit_step y0 sy hsy)) hh hla hc
        refine ⟨(x0, y0) :: l, ?_, h1, h2, h3, ?_⟩
        · rw [hunf, hl]
          rfl
        · simp only [List.length_cons]
          omega

/-- Full behaviour of `drawLine`: it always returns (fuel suffices), the
visited points start at `(x0,y0)`, end exactly at `(x1,y1)`, consecutive
visited points are adjacent, and the number of iterations is at most
`|Δx| + |Δy| + 1`. -/
theorem drawLine_spec (x0 y0 x1 y1 : ℤ) :
    ∃ l, drawLine x0 y0 x1 y1 = some l ∧
      l.head? = some (x0, y0) ∧ l.getLast? = some (x1, y1) ∧
      List.Chain' adjStep l ∧
      l.length ≤ (x1 - x0).natAbs + (y1 - y0).natAbs + 1 := by
  unfold drawLine
  rw [intAbs_eq_natAbs, intAbs_eq_natAbs]
  apply drawLineAux_spec
  · omega
  · omega
  · by_cases h : x0 < x1
    · left; rw [if_pos h]
    · right; rw [if_neg h]
  · by_cases h : y0 < y1
    · left; rw [if_pos h]
    · right; rw [if_neg h]
  · intro h
    by_cases hlt : x0 < x1
    · omega
    · rw [if_neg hlt] at h
      omega
  · intro h
    by_cases hlt : x0 < x1
    · rw [if_pos hlt] at h
      omega
    · omega
  · intro h
    by_cases hlt : y0 < y1
    · omega
    · rw [if_neg hlt] at h
      omega
  · intro h
    by_cases hlt : y0 < y1
    · rw [if_pos hlt] at h
      omega
    · omega
  · omega
  · omega
  · ring
  · omega

/-- C2: between two rasterized points with `|Δx| > 1`, under an always-on
dash style (`on == period`), `drawLine` plots every visited dot (the filter
drops nothing), the plotted dots form a contiguous 8-connected path from
the first point to the second, and the final point's exact coordinate is
plotted (no dropped endpoint), regardless of slope sign. -/
theorem drawLine_solid_connected (style : LineStyle) (x0 y0 x1 y1 : ℤ)
    (hstyle : style.onLen = style.period) (hsep : 1 < (x1 - x0).natAbs) :
    ∃ l, drawLine x0 y0 x1 y1 = some l ∧
      l.filter (fun p => shouldPlot style p.1) = l ∧
      l.head? = some (x0, y0) ∧ l.getLast? = some (x1, y1) ∧
      List.Chain' adjStep l := by
  obtain ⟨l, hl, hh, hla, hc, _⟩ := drawLine_spec x0 y0 x1 y1
  refine ⟨l, hl, ?_, hh, hla, hc⟩
  apply List.filter_eq_self.mpr
  intro a _
  exact shouldPlot_always style hstyle a.1

/-- Witness for C2: the solid style between `(0,0)` and `(4,2)`. -/
theorem drawLine_solid_connected_witness :
    ((⟨"solid", 1, 1⟩ : LineStyle).onLen = (⟨"solid", 1, 1⟩ : LineStyle).period ∧
      1 < ((4 : ℤ) - 0).natAbs) ∧
    (∃ l, drawLine 0 0 4 2 = some l ∧
      l.filter (fun p => shouldPlot ⟨"solid", 1, 1⟩ p.1) = l ∧
      l.head? = some (0, 0) ∧ l.getLast? = some (4, 2) ∧
      List.Chain' adjStep l) :=
  ⟨⟨rfl, by decide⟩,
    drawLine_solid_connected ⟨"solid", 1, 1⟩ 0 0 4 2 rfl (by decide)⟩

/-- C10: `drawLine` terminates for every pair of integer endpoints; the
number of loop iterations (plot calls) is bounded by `|Δx| + |Δy| + 1`. -/
theorem drawLine_terminates (x0 y0 x1 y1 : ℤ) :
    ∃ l, drawLine x0 y0 x1 y1 = some l ∧
      l.length ≤ (x1 - x0).natAbs + (y1 - y0).natAbs + 1 := by
  obtain ⟨l, hl, _, _, _, hlen⟩ := drawLine_spec x0 y0 x1 y1
  exact ⟨l, hl, hlen⟩

/-- The loop body of `composeCell` from plot.go; `p` is the `(i, cells)`
pair of the `range` loop, `acc` the `(mask, colorIdx)` accumulator. -/
def composeStep (x y : ℤ) (acc : ℕ × ℤ) (p : ℕ × List (List ℕ)) : ℕ × ℤ :=
  if y < 0 ∨ y ≥ (p.2.length : ℤ) then acc
  else if x < 0 ∨ x ≥ ((p.2.getD y.toNat []).length : ℤ) then acc
  else
    let cellMask := (p.2.getD y.toNat []).getD x.toNat 0
    if cellMask = 0 then acc
    else (acc.1 ||| cellMask, if acc.2 = -1 then (p.1 : ℤ) else acc.2)

/-- `composeCell` from plot.go: ORs all series' masks at `(x, y)` and records
the first contributing series index (`-1` when none). -/
def composeCell (seriesCells : List (List (List ℕ))) (x y : ℤ) : ℕ × ℤ :=
  seriesCells.enum.foldl (composeStep x y) (0, -1)

/-- Spec-side: the bitwise OR of all masks. -/
def orAll : List ℕ → ℕ
  | [] => 0
  | m :: t => m ||| orAll t

/-- Spec-side: the lowest index (counting from `k`) whose mask is nonzero,
`-1` when all masks are zero. -/
def firstOwner (k : ℕ) : List ℕ → ℤ
  | [] => -1
  | m :: t => if m = 0 then firstOwner (k + 1) t else (k : ℤ)

theorem composeStep_in_bounds (x y H W : ℕ) (hx : x < W) (hy : y < H)
    (i : ℕ) (cells : List (List ℕ)) (hlen : cells.length = H)
    (hrows : ∀ row ∈ cells, row.length = W) (acc : ℕ × ℤ) :
    composeStep (x : ℤ) (y : ℤ) acc (i, cells) =
      (if (cells.getD y []).getD x 0 = 0 then acc
       else (acc.1 ||| (cells.getD y []).getD x 0,
         if acc.2 = -1 then (i : ℤ) else acc.2)) := by
  have hylen : y < cells.length := by omega
  have hmem : cells.getD y [] ∈ cells := by
    rw [List.getD_eq_getElem cells [] hylen]
    exact List.getElem_mem hylen
  have hrow : (cells.getD y []).length = W := hrows _ hmem
  unfold composeStep
  dsimp only
  rw [if_neg (by push_neg; omega)]
  simp only [Int.toNat_natCast]
  rw [if_neg (by push_neg; omega)]

theorem composeCell_fold (x y H W : ℕ) (hx : x < W) (hy : y < H) :
    ∀ (l : List (List (List ℕ))) (k : ℕ) (m0 : ℕ) (c0 : ℤ),
      (∀ cells ∈ l, cells.length = H ∧ ∀ row ∈ cells, row.length = W) →
      (l.enumFrom k).foldl (composeStep (x : ℤ) (y : ℤ)) (m0, c0) =
        (m0 ||| orAll (l.map fun cells => (cells.getD y []).getD x 0),
          if c0 = -1 then
            firstOwner k (l.map fun cells => (cells.getD y []).getD x 0)
          else c0) := by
  intro l
  induction l with
  | nil =>
    intro k m0 c0 _
    simp only [List.enumFrom, List.foldl_nil, List.map_nil, orAll, firstOwner]
    rw [Nat.or_zero]
    by_cases hc0 : c0 = -1
    · rw [if_pos hc0, hc0]
    · rw [if_neg hc0]
  | cons cells t iht =>
    intro k m0 c0 hdim
    have hc := hdim cells (List.mem_cons_self _ _)
    have ht : ∀ c ∈ t, c.length = H ∧ ∀ row ∈ c, row.length = W :=
      fun c hcmem => hdim c (List.mem_cons_of_mem _ hcmem)
    have hstep := composeStep_in_bounds x y H W hx hy k cells hc.1 hc.2 (m0, c0)
    simp only [List.enumFrom, List.foldl_cons, List.map_cons, orAll, firstOwner]
    simp only [hstep]
    by_cases hz : (cells.getD y []).getD x 0 = 0
    · rw [if_pos hz, iht k.succ m0 c0 ht]
      simp only [hz, Nat.zero_or, eq_self_iff_true, if_true]
    · rw [if_neg hz]
      dsimp only
      rw [iht k.succ _ _ ht, if_neg hz, Nat.or_assoc]
      by_cases hc0 : c0 = -1
      · simp only [if_pos hc0]
        rw [if_neg (by omega : ¬ ((k : ℤ) = -1))]
      · simp only [if_neg hc0]

theorem firstOwner_eq_neg_one_iff (masks : List ℕ) :
    ∀ k, (firstOwner k masks = -1 ↔ ∀ m ∈ masks, m = 0) := by
  induction masks with
  | nil =>
    intro k
    simp [firstOwner]
  | cons m t iht =>
    intro k
    unfold firstOwner
    by_cases hm : m = 0
    · rw [if_pos hm]
      rw [iht (k + 1)]
      constructor
      · intro h a ha
        rcases List.mem_cons.mp ha with rfl | ha
        · exact hm
        · exact h a ha
      · intro h a ha
        exact h a (List.mem_cons_of_mem _ ha)
    · rw [if_neg hm]
      constructor
      · intro h
        omega
      · intro h
        exact absurd (h m (List.mem_cons_self _ _)) hm

theorem firstOwner_lowest (masks : List ℕ) :
    ∀ k i, i < masks.length → (∀ j, j < i → masks.getD j 0 = 0) →
      masks.getD i 0 ≠ 0 → firstOwner k masks = ((k + i : ℕ) : ℤ) := by
  induction masks with
  | nil =>
    intro k i hi
    simp at hi
  | cons m t iht =>
    intro k i hi hzero hnz
    unfold firstOwner
    by_cases hm : m = 0
    · rw [if_pos hm]
      cases i with
      | zero =>
        exact absurd hm (by simpa using hnz)
      | succ i' =>
        have h1 : i' < t.length := by
          simpa using hi
        have h2 : ∀ j, j < i' → t.getD j 0 = 0 := by
          intro j hj
          have := hzero (j + 1) (by omega)
          simpa using this
        have h3 : t.getD i' 0 ≠ 0 := by
          simpa using hnz
        rw [iht (k + 1) i' h1 h2 h3]
        congr 1
        omega
    · rw [if_neg hm]
      cases i with
      | zero =>
        norm_num
      | succ i' =>
        have := hzero 0 (by omega)
        simp at this
        exact absurd this hm

/-- C9: for an in-bounds cell position of same-sized per-series dot grids,
`composeCell` returns the bitwise OR of all series' masks at that cell, and
as owner the lowest series index with a nonzero mask there (`-1` when every
mask is zero); `firstOwner` is exactly that lowest-index function. -/
theorem composeCell_correct (seriesCells : List (List (List ℕ))) (H W x y : ℕ)
    (hx : x < W) (hy : y < H)
    (hdim : ∀ cells ∈ seriesCells,
      cells.length = H ∧ ∀ row ∈ cells, row.length = W) :
    composeCell seriesCells (x : ℤ) (y : ℤ) =
      (orAll (seriesCells.map fun cells => (cells.getD y []).getD x 0),
        firstOwner 0 (seriesCells.map fun cells => (cells.getD y []).getD x 0)) ∧
    (firstOwner 0 (seriesCells.map fun cells => (cells.getD y []).getD x 0) = -1 ↔
      ∀ m ∈ seriesCells.map fun cells => (cells.getD y []).getD x 0, m = 0) ∧
    (∀ i, i < (seriesCells.map fun cells => (cells.getD y []).getD x 0).length →
      (∀ j, j < i →
        (seriesCells.map fun cells => (cells.getD y []).getD x 0).getD j 0 = 0) →
      (seriesCells.map fun cells => (cells.getD y []).getD x 0).getD i 0 ≠ 0 →
      firstOwner 0 (seriesCells.map fun cells => (cells.getD y []).getD x 0) =
        (i : ℤ)) := by
  refine ⟨?_, firstOwner_eq_neg_one_iff _ 0, ?_⟩
  · unfold composeCell
    rw [List.enum]
    rw [composeCell_fold x y H W hx hy seriesCells 0 0 (-1) hdim]
    rw [if_pos rfl, Nat.zero_or]
  · intro i h1 h2 h3
    have := firstOwner_lowest _ 0 i h1 h2 h3
    simpa using this

/-- Witness for C9 at two 1×1 grids with masks 4 and 2 at the only cell. -/
theorem composeCell_correct_witness :
    ((0 : ℕ) < 1 ∧ (0 : ℕ) < 1 ∧
      (∀ cells ∈ [[[4]], [[2]]], List.length cells = 1 ∧
        ∀ row ∈ cells, List.length row = 1)) ∧
    (composeCell [[[4]], [[2]]] ((0 : ℕ) : ℤ) ((0 : ℕ) : ℤ) =
      (orAll ([[[4]], [[2]]].map fun cells =>
        (cells.getD 0 []).getD 0 0),
       firstOwner 0 ([[[4]], [[2]]].map fun cells =>
        (cells.getD 0 []).getD 0 0))) :=
  ⟨⟨Nat.one_pos, Nat.one_pos, by decide⟩,
    (composeCell_correct [[[4]], [[2]]] 1 1 0 0 Nat.one_pos Nat.one_pos
      (by decide)).1⟩

/-- `brailleDotMask` from plot.go: the fixed 2×4 dot-to-bit table. -/
def brailleDotMask (x y : ℕ) : ℕ :=
  if x = 0 ∧ y = 0 then 0x01
  else if x = 0 ∧ y = 1 then 0x02
  else if x = 0 ∧ y = 2 then 0x04
  else if x = 0 ∧ y = 3 then 0x40
  else if x = 1 ∧ y = 0 then 0x08
  else if x = 1 ∧ y = 1 then 0x10
  else if x = 1 ∧ y = 2 then 0x20
  else if x = 1 ∧ y = 3 then 0x80
  else 0

/-- `brailleFromMask` from plot.go (`mask` is a `uint8`, hence `% 256`). -/
def brailleFromMask (mask : ℕ) : Char :=
  Char.ofNat (0x2800 + mask % 256)

/-- `setBrailleDot` from plot.go.  After the negativity guard the Go `int`
arithmetic is on nonnegative values, modelled in `ℕ`; `List.modify` is a
no-op out of range, exactly like the Go bounds guards. -/
def setBrailleDot (cells : List (List ℕ)) (x y : ℤ) : List (List ℕ) :=
  if y < 0 ∨ x < 0 then cells
  else
    let cellY := y.toNat / 4
    let cellX := x.toNat / 2
    let dotMask := brailleDotMask (x.toNat % 2) (y.toNat % 4)
    cells.modify (fun row => row.modify (fun m => m ||| dotMask) cellX) cellY

/-- `makeCells` from plot.go. -/
def makeCells (height width : ℕ) : List (List ℕ) :=
  List.replicate height (List.replicate width 0)

/-- Go's `math.Abs` on the rational model. -/
def mathAbs (q : ℚ) : ℚ :=
  if q < 0 then -q else q

/-- Go's `math.Round`: round to nearest, ties away from zero. -/
def goRound (q : ℚ) : ℤ :=
  if q < 0 then -⌊-q + 1/2⌋ else ⌊q + 1/2⌋

/-- `valueToRow` from plot.go. -/
def valueToRow (v minVal maxVal : ℚ) (height : ℤ) : ℤ :=
  if height ≤ 1 then 0
  else
    let pos := (v - minVal) / (maxVal - minVal)
    let row := goRound ((1 - pos) * ((height : ℚ) - 1))
    let row := if row < 0 then 0 else row
    if row ≥ height then height - 1 else row

/-- `seriesMinMaxSingle` from plot.go: fold min/max; the `±Inf` sentinels of
the Go code are observable only on the empty list, where both collapse to 0. -/
def seriesMinMaxSingle (values : List ℚ) : ℚ × ℚ :=
  match values with
  | [] => (0, 0)
  | v :: t => (t.foldl min v, t.foldl max v)

/-- The per-series range computation of `plotSeries` (lines 106–114):
min/max of the resampled values, widened to `[min-1, max+1]` when the range
is degenerate (`|max-min| < 1e-9`). -/
def widenRange (vals : List ℚ) : SeriesMinMaxRange :=
  let mm := seriesMinMaxSingle vals
  if mathAbs (mm.2 - mm.1) < 1 / 1000000000 then ⟨mm.1 - 1, mm.2 + 1⟩
  else ⟨mm.1, mm.2⟩

/-- `filterSeries` from plot.go: drop empty series. -/
def filterSeries (series : List Series) : List Series :=
  series.filter fun s => !s.values.isEmpty

/-- `maxSeriesLen` from plot.go. -/
def maxSeriesLen (series : List Series) : ℕ :=
  series.foldl (fun m s => max m s.values.length) 0

/-- `PlotWidthFor` from plot.go (`utf8.RuneCountInString` is the char count). -/
def PlotWidthFor (totalWidth : ℤ) : ℤ :=
  if totalWidth ≤ 0 then minPlotWidth
  else
    let axisWidth : ℤ := (axisLabelTop.length : ℤ) + (axisSeparator.length : ℤ)
    let p1 := totalWidth - axisWidth
    let p2 := if p1 < minPlotWidth then minPlotWidth else p1
    if p2 < 1 then 1 else p2

/-- `terminalWidth` from plot.go; `none` models a `term.GetSize` error. -/
def terminalWidth (tw : Option ℤ) : ℤ :=
  match tw with
  | none => terminalWidthBackup
  | some w => if w ≤ 0 then terminalWidthBackup else w

/-- `autoPlotWidth` from plot.go. -/
def autoPlotWidth (tw : Option ℤ) : ℤ :=
  PlotWidthFor (terminalWidth tw)

/-- `shouldUseColor` from plot.go; the `NO_COLOR` environment variable and
"the sink is an `*os.File` that is a terminal" are explicit parameters. -/
def shouldUseColor (noColorEnv : String) (force : Bool) (isTerminalFile : Bool) : Bool :=
  if noColorEnv ≠ "" then false
  else if force then true
  else isTerminalFile

/-- `makeAxisLabels` from plot.go. -/
def makeAxisLabels (height : ℕ) : List String :=
  let labels := List.replicate height ""
  if height = 0 then labels
  else
    let labels := labels.set 0 axisLabelTop
    let labels := if height > 2 then labels.set (height / 2) axisLabelMid else labels
    if height > 1 then labels.set (height - 1) axisLabelBottom else labels

def digitChar (d : ℕ) : Char := Char.ofNat (48 + d % 10)

def natToChars (n : ℕ) : List Char :=
  if n < 10 then [digitChar n]
  else natToChars (n / 10) ++ [digitChar (n % 10)]
decreasing_by exact Nat.div_lt_self (by omega) (by omega)

/-- Round to nearest integer, ties to even (the rounding of Go's `%.2f`). -/
def roundHalfEven (q : ℚ) : ℤ :=
  let f := ⌊q⌋
  let r := q - (f : ℚ)
  if r < 1/2 then f
  else if r > 1/2 then f + 1
  else if f % 2 = 0 then f else f + 1

/-- Rendering of Go's `%.2f`: fixed two decimals. -/
def formatFixed2 (q : ℚ) : String :=
  let n := roundHalfEven (q * 100)
  let sign := if n < 0 then "-" else ""
  let m := n.natAbs
  sign ++ String.mk (natToChars (m / 100)) ++ "." ++
    String.mk [digitChar (m / 10 % 10), digitChar (m % 10)]

/-- The min/max line of `plotSeries`:
`fmt.Fprintf(w, "%s: min=%.2f max=%.2f\n", ...)`. -/
def minMaxLine (s : Series) (mm : SeriesMinMaxRange) : String :=
  s.name ++ ": min=" ++ formatFixed2 mm.min ++ " max=" ++ formatFixed2 mm.max

/-- Go's `strings.Join`. -/
def joinSep (sep : String) : List String → String
  | [] => ""
  | [s] => s
  | s :: t => s ++ sep ++ joinSep sep t

/-- `renderLegend` from plot.go. -/
def renderLegend (series : List Series) (useColor : Bool) : String :=
  let marker := brailleFromMask 0x01
  let parts := series.enum.map fun p =>
    let styleName := (lineStyles.getD (p.1 % lineStyles.length) ⟨"", 0, 0⟩).name
    let label := String.mk [marker] ++ " " ++ p.2.name ++ " (" ++ styleName ++ ")"
    if useColor then
      (colorPalette.getD (p.1 % colorPalette.length) ⟨"", ""⟩).code ++ label ++ colorReset
    else label
  "Legend: " ++ joinSep "  " parts

/-- The plot-callback body used by `plotSeries`: dash-style gated
`setBrailleDot`, applied to each dot `drawLine` visits. -/
def plotDots (style : LineStyle) (cells : List (List ℕ))
    (pts : List (ℤ × ℤ)) : List (List ℕ) :=
  pts.foldl (fun c p => if shouldPlot style p.1 then setBrailleDot c p.1 p.2 else c) cells

/-- The rasterization loop of `plotSeries` (lines 120–147) for one series:
sample `x` maps to dot column `2x`, values map to dot rows through
`valueToRow` with the post-call clamps, consecutive dots are connected by
`drawLine`, the first sample is plotted alone.  The Go `prevX = -1` sentinel
is the `Option` state. -/
def rasterSeries (style : LineStyle) (mm : SeriesMinMaxRange) (height width : ℕ)
    (vals : List ℚ) : List (List ℕ) :=
  let pts := vals.enum.map fun p =>
    let row := valueToRow p.2 mm.min mm.max ((height : ℤ) * 4)
    let row := if row < 0 then 0 else row
    let row := if row ≥ (height : ℤ) * 4 then (height : ℤ) * 4 - 1 else row
    (((p.1 : ℤ)) * 2, row)
  (pts.foldl (fun acc p =>
      match acc.2 with
      | some prev => (plotDots style acc.1 ((drawLine prev.1 prev.2 p.1 p.2).getD []), some p)
      | none =>
        ((if shouldPlot style p.1 then setBrailleDot acc.1 p.1 p.2 else acc.1), some p))
    (makeCells height width, none)).1

/-- The characters of one rendered cell of a data row (color prelude and
reset only when color is on and the cell has an owner). -/
def cellChars (useColor : Bool) (seriesCells : List (List (List ℕ)))
    (x y : ℕ) : List Char :=
  let mc := composeCell seriesCells (x : ℤ) (y : ℤ)
  let ch := brailleFromMask mc.1
  if useColor ∧ mc.2 ≥ 0 then
    ((colorPalette.getD (mc.2.toNat % colorPalette.length) ⟨"", ""⟩).code).data ++
      [ch] ++ colorReset.data
  else [ch]

/-- One data row of `plotSeries` (lines 166–185): the right-aligned axis
label (`fmt.Sprintf("%*s%s", leftAxisWidth, label, axisSeparator)`), then
one composed cell per column. -/
def dataRow (useColor : Bool) (width : ℕ) (seriesCells : List (List (List ℕ)))
    (label : String) (y : ℕ) : String :=
  String.mk (List.replicate (axisLabelTop.length - label.length) ' ' ++
    label.data ++ axisSeparator.data ++
    (List.range width).flatMap fun x => cellChars useColor seriesCells x y)

/-- `plotSeries` from plot.go, as the ordered list of lines it writes to the
sink (each Go `Fprintln`/`Fprintf` call emits exactly one line). -/
def resolveHeight (height : ℤ) : ℤ :=
  if height ≤ 0 then defaultPlotHeight else height

/-- The width resolution of `plotSeries` (lines 88–96): terminal-derived
when nonpositive, then floored at `minPlotWidth`, then at 1. -/
def resolveWidth (termW : Option ℤ) (width : ℤ) : ℤ :=
  let w1 := if width ≤ 0 then autoPlotWidth termW else width
  let w2 := if w1 < minPlotWidth then minPlotWidth else w1
  if w2 < 1 then 1 else w2

def plotSeries (noColorEnv : String) (isTerminalFile : Bool) (termW : Option ℤ)
    (title : String) (series : List Series) (width height : ℤ)
    (forceColor : Bool) : List String :=
  let series := filterSeries series
  if series.isEmpty then []
  else if maxSeriesLen series = 0 then []
  else
    let height := resolveHeight height
    let width := resolveWidth termW width
    let W := width.toNat
    let H := height.toNat
    let scaled := series.map fun s => Series.mk s.name (resampleSeries s.values W)
    let minMax := scaled.map fun s => widenRange s.values
    let seriesCells := (scaled.zip minMax).enum.map fun p =>
      rasterSeries (lineStyles.getD (p.1 % lineStyles.length) ⟨"", 0, 0⟩)
        p.2.2 H W p.2.1.values
    let useColor := shouldUseColor noColorEnv forceColor isTerminalFile
    let axisLabels := makeAxisLabels H
    (if title ≠ "" then [title] else []) ++
    [scaleNote] ++
    (scaled.zip minMax).map (fun p => minMaxLine p.1 p.2) ++
    (List.range H).map (fun y => dataRow useColor W seriesCells (axisLabels.getD y "") y) ++
    [renderLegend scaled useColor] ++
    [""]

/-- Running the writes of `plotSeries` against a sink whose `failAt`-th write
(if any) fails: the Go function returns the write error of the first failing
write and `nil` otherwise. -/
def runPlot (failAt : Option ℕ) (lines : List String) : Except Unit Unit :=
  match failAt with
  | none => Except.ok ()
  | some k => if k < lines.length then Except.error () else Except.ok ()

set_option maxRecDepth 40000 in
/-- C5: a degenerate per-series range (`|max-min| < 1e-9`) is widened to
`[min-1, max+1]`; in particular `[5,5,5]` resampled to width 3 is unchanged,
its declared range `[5,5]` is widened to `[4,6]`, its min/max line reads
`min=4.00 max=6.00`, and the full render reports exactly that line. -/
theorem degenerate_range_widened (vals : List ℚ)
    (h : mathAbs ((seriesMinMaxSingle vals).2 - (seriesMinMaxSingle vals).1) <
      1 / 1000000000) :
    widenRange vals = ⟨(seriesMinMaxSingle vals).1 - 1,
      (seriesMinMaxSingle vals).2 + 1⟩ ∧
    resampleSeries [5, 5, 5] 3 = [5, 5, 5] ∧
    widenRange (resampleSeries [5, 5, 5] 3) = ⟨4, 6⟩ ∧
    minMaxLine ⟨"S", resampleSeries [5, 5, 5] 3⟩
      (widenRange (resampleSeries [5, 5, 5] 3)) = "S: min=4.00 max=6.00" ∧
    (plotSeries "" false none "T" [⟨"S", [5, 5, 5]⟩] 3 4 false).getD 2 "" =
      "S: min=4.00 max=6.00" := by
  refine ⟨?_, by with_unfolding_all decide, by with_unfolding_all decide,
    by with_unfolding_all decide, by with_unfolding_all decide⟩
  unfold widenRange
  rw [if_pos h]

set_option maxRecDepth 40000 in
/-- Witness for C5 at the constant series `[5,5,5]`. -/
theorem degenerate_range_widened_witness :
    (mathAbs ((seriesMinMaxSingle [5, 5, 5]).2 - (seriesMinMaxSingle [5, 5, 5]).1) <
      1 / 1000000000) ∧
    widenRange [5, 5, 5] = ⟨(seriesMinMaxSingle [5, 5, 5]).1 - 1,
      (seriesMinMaxSingle [5, 5, 5]).2 + 1⟩ :=
  ⟨by with_unfolding_all decide,
    (degenerate_range_widened [5, 5, 5] (by with_unfolding_all decide)).1⟩

set_option maxRecDepth 100000 in
/-- C6: the end-to-end render of `A=[1,2,3,2,1]`, `B=[1,1,2,3,4]`, width 5,
height 4, color disabled, title `"Test Plot"`: title line, disclaimer line,
one min/max line per series, exactly 4 data rows whose gutters are
`100%`/blank/`50%` (middle row)/`0%`, a legend naming `A` and `B` with the
distinct dash styles `solid` and `dashed`, and one trailing blank line. -/
theorem plotSeries_end_to_end :
    (plotSeries "" false none "Test Plot"
        [⟨"A", [1, 2, 3, 2, 1]⟩, ⟨"B", [1, 1, 2, 3, 4]⟩] 5 4 false).length = 10 ∧
    (plotSeries "" false none "Test Plot"
        [⟨"A", [1, 2, 3, 2, 1]⟩, ⟨"B", [1, 1, 2, 3, 4]⟩] 5 4 false).getD 0 "" =
      "Test Plot" ∧
    (plotSeries "" false none "Test Plot"
        [⟨"A", [1, 2, 3, 2, 1]⟩, ⟨"B", [1, 1, 2, 3, 4]⟩] 5 4 false).getD 1 "" =
      "Scaled per series; see min/max below." ∧
    ((plotSeries "" false none "Test Plot"
        [⟨"A", [1, 2, 3, 2, 1]⟩, ⟨"B", [1, 1, 2, 3, 4]⟩] 5 4 false).getD 2 ""
      |>.data.take 7) = "A: min=".data ∧
    ((plotSeries "" false none "Test Plot"
        [⟨"A", [1, 2, 3, 2, 1]⟩, ⟨"B", [1, 1, 2, 3, 4]⟩] 5 4 false).getD 3 ""
      |>.data.take 7) = "B: min=".data ∧
    ((plotSeries "" false none "Test Plot"
        [⟨"A", [1, 2, 3, 2, 1]⟩, ⟨"B", [1, 1, 2, 3, 4]⟩] 5 4 false).getD 4 ""
      |>.data.take 7) = "100% │ ".data ∧
    ((plotSeries "" false none "Test Plot"
        [⟨"A", [1, 2, 3, 2, 1]⟩, ⟨"B", [1, 1, 2, 3, 4]⟩] 5 4 false).getD 5 ""
      |>.data.take 7) = "     │ ".data ∧
    ((plotSeries "" false none "Test Plot"
        [⟨"A", [1, 2, 3, 2, 1]⟩, ⟨"B", [1, 1, 2, 3, 4]⟩] 5 4 false).getD 6 ""
      |>.data.take 7) = " 50% │ ".data ∧
    ((plotSeries "" false none "Test Plot"
        [⟨"A", [1, 2, 3, 2, 1]⟩, ⟨"B", [1, 1, 2, 3, 4]⟩] 5 4 false).getD 7 ""
      |>.data.take 7) = "  0% │ ".data ∧
    (plotSeries "" false none "Test Plot"
        [⟨"A", [1, 2, 3, 2, 1]⟩, ⟨"B", [1, 1, 2, 3, 4]⟩] 5 4 false).getD 8 "" =
      "Legend: ⠁ A (solid)  ⠁ B (dashed)" ∧
    (plotSeries "" false none "Test Plot"
        [⟨"A", [1, 2, 3, 2, 1]⟩, ⟨"B", [1, 1, 2, 3, 4]⟩] 5 4 false).getD 9 "" =
      "" := by
  with_unfolding_all decide

/-- C7: empty series are dropped; when none remain the render writes nothing
and returns `nil`; a non-nil error arises only from a failed write. -/
theorem plotSeries_total (noColorEnv : String) (isTerm : Bool) (termW : Option ℤ)
    (title : String) (series : List Series) (width height : ℤ) (force : Bool)
    (failAt : Option ℕ) :
    (∀ s ∈ filterSeries series, s.values ≠ []) ∧
    (filterSeries series = [] →
      plotSeries noColorEnv isTerm termW title series width height force = [] ∧
      runPlot failAt
        (plotSeries noColorEnv isTerm termW title series width height force) =
        Except.ok ()) ∧
    (runPlot failAt
        (plotSeries noColorEnv isTerm termW title series width height force) =
        Except.error () →
      ∃ k, failAt = some k ∧
        k < (plotSeries noColorEnv isTerm termW title series width height
          force).length) := by
  refine ⟨?_, ?_, ?_⟩
  · intro s hs
    have := (List.mem_filter.mp hs).2
    intro hnil
    rw [hnil] at this
    simp at this
  · intro hempty
    have h0 : plotSeries noColorEnv isTerm termW title series width height force
        = [] := by
      unfold plotSeries
      rw [hempty]
      rfl
    refine ⟨h0, ?_⟩
    rw [h0]
    cases failAt with
    | none => rfl
    | some k => simp [runPlot]
  · intro herr
    cases failAt with
    | none =>
      simp only [runPlot] at herr
      exact Except.noConfusion herr
    | some k =>
      simp only [runPlot] at herr
      by_cases hk : k < (plotSeries noColorEnv isTerm termW title series width
          height force).length
      · exact ⟨k, rfl, hk⟩
      · rw [if_neg hk] at herr
        cases herr

/-- Witness for C7 at an empty series list. -/
theorem plotSeries_total_witness :
    filterSeries ([] : List Series) = [] ∧
    plotSeries "" false none "T" [] 5 4 false = [] :=
  ⟨rfl, ((plotSeries_total "" false none "T" [] 5 4 false none).2.1 rfl).1⟩

theorem getD_set {α : Type} (l : List α) (i j : ℕ) (a d : α) :
    (l.set i a).getD j d = if i = j ∧ j < l.length then a else l.getD j d := by
  by_cases hj : j < l.length
  · rw [List.getD_eq_getElem _ _ (by simpa using hj), List.getElem_set]
    by_cases hij : i = j
    · rw [if_pos hij, if_pos ⟨hij, hj⟩]
    · rw [if_neg hij, if_neg (by tauto), List.getD_eq_getElem _ _ hj]
  · have h1 : ¬ j < (l.set i a).length := by simpa using hj
    rw [List.getD_eq_getElem?_getD, List.getElem?_eq_none (by omega),
      if_neg (by tauto), List.getD_eq_getElem?_getD, List.getElem?_eq_none (by omega)]

theorem getD_replicate_self {α : Type} (n j : ℕ) (d : α) :
    (List.replicate n d).getD j d = d := by
  by_cases hj : j < n
  · rw [List.getD_eq_getElem _ _ (by simpa using hj), List.getElem_replicate]
  · rw [List.getD_eq_getElem?_getD, List.getElem?_eq_none (by simpa using hj)]
    rfl

/-- Every axis-gutter entry is one of the four fixed label strings. -/
theorem axisLabels_getD (H y : ℕ) :
    (makeAxisLabels H).getD y "" = "" ∨
    (makeAxisLabels H).getD y "" = axisLabelTop ∨
    (makeAxisLabels H).getD y "" = axisLabelMid ∨
    (makeAxisLabels H).getD y "" = axisLabelBottom := by
  unfold makeAxisLabels
  by_cases h0 : H = 0
  · rw [if_pos h0]
    left
    exact getD_replicate_self H y ""
  · rw [if_neg h0]
    by_cases h1 : H > 1
    · rw [if_pos h1]
      by_cases h2 : H > 2
      · rw [if_pos h2, getD_set, getD_set, getD_set]
        split
        · right; right; right; rfl
        · split
          · right; right; left; rfl
          · split
            · right; left; rfl
            · left; exact getD_replicate_self H y ""
      · rw [if_neg h2, getD_set, getD_set]
        split
        · right; right; right; rfl
        · split
          · right; left; rfl
          · left; exact getD_replicate_self H y ""
    · rw [if_neg h1]
      by_cases h2 : H > 2
      · omega
      · rw [if_neg h2, getD_set]
        split
        · right; left; rfl
        · left; exact getD_replicate_self H y ""

theorem axisLabels_length_le (H y : ℕ) :
    ((makeAxisLabels H).getD y "").length ≤ 4 := by
  rcases axisLabels_getD H y with h | h | h | h <;> rw [h] <;> decide

theorem cellChars_no_color (seriesCells : List (List (List ℕ))) (x y : ℕ) :
    cellChars false seriesCells x y =
      [brailleFromMask (composeCell seriesCells (x : ℤ) (y : ℤ)).1] := by
  unfold cellChars
  rw [if_neg (by simp)]

theorem length_flatMap_singleton {α β : Type} (l : List α) (f : α → List β)
    (h : ∀ x ∈ l, (f x).length = 1) : (l.flatMap f).length = l.length := by
  induction l with
  | nil => rfl
  | cons a t ih =>
    rw [List.flatMap_cons, List.length_append, ih (fun x hx => h x (List.mem_cons_of_mem _ hx)),
      h a (List.mem_cons_self _ _), List.length_cons]
    omega

/-- With color off, a data row is the 7-character gutter plus exactly one
character per cell. -/
theorem dataRow_length (width : ℕ) (seriesCells : List (List (List ℕ)))
    (label : String) (y : ℕ) (hlab : label.length ≤ 4) :
    (dataRow false width seriesCells label y).length = 7 + width := by
  unfold dataRow
  show (List.replicate (axisLabelTop.length - label.length) ' ' ++
    label.data ++ axisSeparator.data ++
    (List.range width).flatMap fun x => cellChars false seriesCells x y).length = 7 + width
  rw [List.length_append, List.length_append, List.length_append,
    List.length_replicate,
    length_flatMap_singleton _ _ (fun x _ => by rw [cellChars_no_color]; rfl),
    List.length_range]
  have h1 : label.data.length = label.length := rfl
  have h2 : axisSeparator.data.length = 3 := rfl
  have h3 : axisLabelTop.length = 4 := rfl
  omega

theorem resolveWidth_ge_min (tw : Option ℤ) (w : ℤ) :
    minPlotWidth ≤ resolveWidth tw w := by
  have hm : minPlotWidth = 10 := rfl
  unfold resolveWidth
  dsimp only
  split
  · omega
  · split
    · omega
    · omega

theorem resolveWidth_clamped (tw : Option ℤ) (w : ℤ) (hw : 0 < w)
    (h10 : w < minPlotWidth) : resolveWidth tw w = minPlotWidth := by
  have hm : minPlotWidth = 10 := rfl
  unfold resolveWidth
  dsimp only
  rw [if_neg (show ¬ w ≤ 0 by omega)]
  rw [if_pos (show w < minPlotWidth by omega)]
  rw [if_neg (show ¬ minPlotWidth < 1 by omega)]

/-- C8: the resolved plot width is always at least the fixed minimum (10);
a positive caller-supplied width below 10 is raised to exactly 10; every
surviving series resamples to exactly the resolved width; and with color off
every data row consists of the 7-character gutter plus exactly one cell
character per column of the resolved width. -/
theorem plotSeries_min_width_invariant (termW : Option ℤ) (width : ℤ)
    (series : List Series) (seriesCells : List (List (List ℕ))) (H y : ℕ)
    (hw : 0 < width) (h10 : width < 10) :
    minPlotWidth = 10 ∧
    (∀ tw w, minPlotWidth ≤ resolveWidth tw w) ∧
    resolveWidth termW width = 10 ∧
    (∀ s ∈ filterSeries series,
      (resampleSeries s.values (resolveWidth termW width).toNat).length =
        (resolveWidth termW width).toNat) ∧
    (dataRow false (resolveWidth termW width).toNat seriesCells
        ((makeAxisLabels H).getD y "") y).length =
      7 + (resolveWidth termW width).toNat := by
  have hmin : minPlotWidth = 10 := rfl
  have hres : resolveWidth termW width = 10 := by
    rw [resolveWidth_clamped termW width hw (by rw [hmin]; omega), hmin]
  refine ⟨rfl, resolveWidth_ge_min, hres, ?_, ?_⟩
  · intro s hs
    apply resampleSeries_length_eq
    · have := (List.mem_filter.mp hs).2
      intro hnil
      rw [hnil] at this
      simp at this
    · rw [hres]
      norm_num
  · exact dataRow_length _ seriesCells _ y (axisLabels_length_le H y)

/-- Witness for C8 at caller width 5, height-4 labels. -/
theorem plotSeries_min_width_invariant_witness :
    ((0 : ℤ) < 5 ∧ (5 : ℤ) < 10) ∧
    (resolveWidth none 5 = 10 ∧
      (dataRow false (resolveWidth none 5).toNat [] ((makeAxisLabels 4).getD 0 "") 0).length =
        7 + (resolveWidth none 5).toNat) :=
  ⟨⟨by norm_num, by norm_num⟩,
    ⟨(plotSeries_min_width_invariant none 5 [] [] 4 0 (by norm_num) (by norm_num)).2.2.1,
     (plotSeries_min_width_invariant none 5 [] [] 4 0 (by norm_num) (by norm_num)).2.2.2.2⟩⟩

theorem no_esc_append (a b : String) (ha : '\x1b' ∉ a.data)
    (hb : '\x1b' ∉ b.data) : '\x1b' ∉ (a ++ b).data := by
  rw [String.data_append]
  intro h
  rcases List.mem_append.mp h with h1 | h1
  · exact ha h1
  · exact hb h1

theorem digitChar_ne_esc (d : ℕ) : digitChar d ≠ '\x1b' := by
  unfold digitChar
  have h : d % 10 < 10 := Nat.mod_lt _ (by omega)
  revert h
  generalize d % 10 = r
  intro h
  interval_cases r <;> decide

theorem natToChars_ne_esc (n : ℕ) : '\x1b' ∉ natToChars n := by
  induction n using Nat.strong_induction_on with
  | _ n ih =>
    rw [natToChars]
    by_cases h : n < 10
    · rw [if_pos h]
      intro hmem
      exact digitChar_ne_esc n (List.mem_singleton.mp hmem).symm
    · rw [if_neg h]
      intro hmem
      rcases List.mem_append.mp hmem with h1 | h1
      · exact ih (n / 10) (Nat.div_lt_self (by omega) (by omega)) h1
      · exact digitChar_ne_esc (n % 10) (List.mem_singleton.mp h1).symm

theorem formatFixed2_no_esc (q : ℚ) : '\x1b' ∉ (formatFixed2 q).data := by
  unfold formatFixed2
  apply no_esc_append
  · apply no_esc_append
    · apply no_esc_append
      · by_cases h : roundHalfEven (q * 100) < 0
        · rw [if_pos h]
          decide
        · rw [if_neg h]
          decide
      · intro hmem
        exact natToChars_ne_esc _ hmem
    · decide
  · intro hmem
    rcases List.mem_cons.mp hmem with h1 | h1
    · exact digitChar_ne_esc _ h1.symm
    · exact digitChar_ne_esc _ (List.mem_singleton.mp h1).symm

set_option maxRecDepth 10000 in
theorem brailleFromMask_ne_esc (m : ℕ) : brailleFromMask m ≠ '\x1b' := by
  unfold brailleFromMask
  have h : m % 256 < 256 := Nat.mod_lt _ (by omega)
  revert h
  generalize m % 256 = r
  intro h
  have hall : ∀ r' < 256, Char.ofNat (0x2800 + r') ≠ '\x1b' := by decide
  exact hall r h

theorem minMaxLine_no_esc (s : Series) (mm : SeriesMinMaxRange)
    (hname : '\x1b' ∉ s.name.data) : '\x1b' ∉ (minMaxLine s mm).data := by
  unfold minMaxLine
  apply no_esc_append
  · apply no_esc_append
    · apply no_esc_append
      · apply no_esc_append
        · exact hname
        · decide
      · exact formatFixed2_no_esc mm.min
    · decide
  · exact formatFixed2_no_esc mm.max

theorem styleName_no_esc (k : ℕ) :
    '\x1b' ∉ (lineStyles.getD (k % lineStyles.length) ⟨"", 0, 0⟩).name.data := by
  have h : k % lineStyles.length < 4 := Nat.mod_lt _ (by decide)
  revert h
  generalize k % lineStyles.length = r
  intro h
  interval_cases r <;> decide

theorem joinSep_no_esc (sep : String) (l : List String)
    (hsep' : '\x1b' ∉ sep.data) (h : ∀ s ∈ l, '\x1b' ∉ s.data) :
    '\x1b' ∉ (joinSep sep l).data := by
  induction l with
  | nil =>
    intro hmem
    cases hmem
  | cons s t ih =>
    cases t with
    | nil =>
      exact h s (List.mem_cons_self _ _)
    | cons s2 t2 =>
      show '\x1b' ∉ (s ++ sep ++ joinSep sep (s2 :: t2)).data
      apply no_esc_append
      · exact no_esc_append _ _ (h s (List.mem_cons_self _ _)) hsep'
      · exact ih (fun x hx => h x (List.mem_cons_of_mem _ hx))

theorem renderLegend_no_esc (series : List Series)
    (h : ∀ s ∈ series, '\x1b' ∉ s.name.data) :
    '\x1b' ∉ (renderLegend series false).data := by
  unfold renderLegend
  apply no_esc_append
  · decide
  · apply joinSep_no_esc
    · decide
    · intro s hs
      rcases List.mem_map.mp hs with ⟨p, hp, hlab⟩
      have hpname : '\x1b' ∉ p.2.name.data := by
        apply h
        have : p.2 ∈ series.enum.map Prod.snd := List.mem_map_of_mem Prod.snd hp
        rw [List.enum_map_snd] at this
        exact this
      rw [if_neg (by simp)] at hlab
      rw [← hlab]
      apply no_esc_append
      · apply no_esc_append
        · apply no_esc_append
          · apply no_esc_append
            · apply no_esc_append
              · intro hmem
                exact brailleFromMask_ne_esc 0x01 (List.mem_singleton.mp hmem).symm
              · decide
            · exact hpname
          · decide
        · exact styleName_no_esc p.1
      · decide

theorem dataRow_no_esc (width : ℕ) (seriesCells : List (List (List ℕ)))
    (label : String) (y : ℕ) (hlab : '\x1b' ∉ label.data) :
    '\x1b' ∉ (dataRow false width seriesCells label y).data := by
  unfold dataRow
  show '\x1b' ∉ (List.replicate (axisLabelTop.length - label.length) ' ' ++
    label.data ++ axisSeparator.data ++
    (List.range width).flatMap fun x => cellChars false seriesCells x y)
  intro hmem
  rcases List.mem_append.mp hmem with h1 | h1
  · rcases List.mem_append.mp h1 with h2 | h2
    · rcases List.mem_append.mp h2 with h3 | h3
      · have := List.eq_of_mem_replicate h3
        cases this
      · exact hlab h3
    · revert h2
      decide
  · rcases List.mem_flatMap.mp h1 with ⟨x, _, hx⟩
    rw [cellChars_no_color] at hx
    exact brailleFromMask_ne_esc _ (List.mem_singleton.mp hx).symm

theorem axisLabel_no_esc (H y : ℕ) :
    '\x1b' ∉ ((makeAxisLabels H).getD y "").data := by
  rcases axisLabels_getD H y with h | h | h | h <;> rw [h] <;> decide

/-- C3 counterexample: `NO_COLOR` is set and color is forced on, yet the
rendered output carries an escape byte, copied verbatim from the
caller-supplied title.  The claim as stated is false for such titles. -/
theorem plotSeries_esc_counterexample :
    shouldUseColor "1" true false = false ∧
    ¬ (∀ line ∈ plotSeries "1" false none "\x1b" [⟨"A", [1, 2]⟩] 5 4 true,
        '\x1b' ∉ line.data) := by
  constructor
  · rfl
  · intro h
    have h0 : "\x1b" ∈ plotSeries "1" false none "\x1b" [⟨"A", [1, 2]⟩] 5 4 true := by
      with_unfolding_all decide
    exact h _ h0 (by decide)

/-- C3 (amended): provided the caller-supplied title and series names carry
no escape byte themselves, `NO_COLOR` (any non-empty value) always defeats a
forced-on request, and whenever color resolution is off — in particular
under `NO_COLOR`, or when color is not forced and the sink is not a
terminal — the entire rendered output contains no escape byte `0x1b`. -/
theorem plotSeries_no_escape (noColorEnv : String) (isTerm : Bool)
    (termW : Option ℤ) (title : String) (series : List Series)
    (width height : ℤ) (force : Bool)
    (htitle : '\x1b' ∉ title.data)
    (hnames : ∀ s ∈ series, '\x1b' ∉ s.name.data) :
    (noColorEnv ≠ "" → shouldUseColor noColorEnv force isTerm = false) ∧
    (shouldUseColor noColorEnv force isTerm = false →
      ∀ line ∈ plotSeries noColorEnv isTerm termW title series width height force,
        '\x1b' ∉ line.data) := by
  constructor
  · intro hnc
    unfold shouldUseColor
    rw [if_pos hnc]
  · intro huse line hline
    unfold plotSeries at hline
    by_cases hempty : (filterSeries series).isEmpty
    · rw [if_pos hempty] at hline
      cases hline
    · rw [if_neg hempty] at hline
      by_cases hmax : maxSeriesLen (filterSeries series) = 0
      · rw [if_pos hmax] at hline
        cases hline
      · rw [if_neg hmax] at hline
        rw [huse] at hline
        have hscaled : ∀ s ∈ (filterSeries series).map
            (fun s => Series.mk s.name
              (resampleSeries s.values (resolveWidth termW width).toNat)),
            '\x1b' ∉ s.name.data := by
          intro s hs
          rcases List.mem_map.mp hs with ⟨s0, hs0, rfl⟩
          exact hnames s0 (List.mem_filter.mp hs0).1
        rcases List.mem_append.mp hline with h1 | hF
        · rcases List.mem_append.mp h1 with h2 | hE
          · rcases List.mem_append.mp h2 with h3 | hD
            · rcases List.mem_append.mp h3 with h4 | hC
              · rcases List.mem_append.mp h4 with hA | hB
                · by_cases ht : title ≠ ""
                  · rw [if_pos ht] at hA
                    cases hA with
                    | head => exact htitle
                    | tail _ h5 => cases h5
                  · rw [if_neg ht] at hA
                    cases hA
                · cases hB with
                  | head => decide
                  | tail _ h5 => cases h5
              · rcases List.mem_map.mp hC with ⟨p, hp, hline'⟩
                rw [← hline']
                apply minMaxLine_no_esc
                exact hscaled p.1 (List.of_mem_zip hp).1
            · rcases List.mem_map.mp hD with ⟨yy, _, hline'⟩
              rw [← hline']
              exact dataRow_no_esc _ _ _ yy (axisLabel_no_esc _ yy)
          · cases hE with
            | head => exact renderLegend_no_esc _ hscaled
            | tail _ h5 => cases h5
        · cases hF with
          | head => decide
          | tail _ h5 => cases h5

/-- Witness for C3 (amended): `NO_COLOR = "1"`, a clean title and name,
color forced on — color is off and the first output line is clean. -/
theorem plotSeries_no_escape_witness :
    ('\x1b' ∉ "T".data ∧ (∀ s ∈ [(⟨"A", [1, 2]⟩ : Series)], '\x1b' ∉ s.name.data) ∧
      ("1" : String) ≠ "" ∧ shouldUseColor "1" true false = false) ∧
    (∀ line ∈ plotSeries "1" false none "T" [⟨"A", [1, 2]⟩] 5 4 true,
      '\x1b' ∉ line.data) :=
  ⟨⟨by decide, by decide, by decide, rfl⟩,
    (plotSeries_no_escape "1" false none "T" [⟨"A", [1, 2]⟩] 5 4 true
      (by decide) (by decide)).2 rfl⟩

end Tuipe
